import Mathlib

/-!
Shallow embedding of the `cache` Go package (an in-memory key/value store
with time-based expiry) and proofs about its operations.

Modelling choices:
- `time.Time` is modelled as `Int` (instants on a linear clock); the Go zero
  time (`Time.IsZero`) is the integer `0`; `a.After(b)` is `b < a`;
  `a.Sub(b)` is `a - b`; `t.Add(d)` is `t + d`.
- `time.Duration` is modelled as `Int`.
- the Go map `map[string]value` is modelled as an association list
  `List (String × Value α)`; reachable stores have pairwise distinct keys
  (`keysNodup`), matching Go map semantics.
- the opaque payload `interface{}` is modelled as `Option α`: `none` is the
  nil interface value, `some a` a non-nil payload.
- `float64` (the partial expirer's continue ratio) is modelled as `Rat`.
- the mutex, the cleaner goroutine and its channel are concurrency devices;
  the state they guard is modelled directly, with `cleanerRunning` standing
  for `chClean != nil`.  Each call to `time.Now()` becomes an explicit
  instant parameter, one per capture site.
-/

set_option autoImplicit false

namespace GoCache

/-- An instant of `time.Time`, as an integer; `0` is Go's zero time. -/
abbrev Time := Int

/-- A `time.Duration`, as an integer. -/
abbrev Duration := Int

/-- The `value` struct stored in the cache map: an absolute expiry instant
and the (non-nil) payload. -/
structure Value (α : Type) where
  expireAt : Time
  data : α
  deriving DecidableEq, Repr

/-- The contents of the Go map `map[string]value`. -/
abbrev Store (α : Type) := List (String × Value α)

/-- Go map invariant: every key occurs at most once. -/
def keysNodup {α : Type} (m : Store α) : Prop :=
  (m.map Prod.fst).Nodup

/-- Go map read `v, ok := m[k]`: the value at `k`, if present. -/
def lookup {α : Type} : Store α → String → Option (Value α)
  | [], _ => none
  | p :: rest, k => if p.1 = k then some p.2 else lookup rest k

/-- Go `delete(m, k)`. -/
def eraseKey {α : Type} (m : Store α) (k : String) : Store α :=
  m.filter (fun p => p.1 != k)

/-- Go map write `m[k] = v` (insert or overwrite). -/
def insertKey {α : Type} (m : Store α) (k : String) (v : Value α) : Store α :=
  eraseKey m k ++ [(k, v)]

/-- `isExpired` from cache.go: the deadline is set (non-zero) and `now`
is strictly after it. -/
def isExpired {α : Type} (now : Time) (v : Value α) : Bool :=
  !decide (v.expireAt = 0) && decide (v.expireAt < now)

/-- The mutable state of a `Cache` (cache.go), minus the concurrency
devices: `durClean` and the expirer are configuration, `closed` the
shutdown flag, `cleanerRunning` models `chClean != nil`, `objs` the store. -/
structure Cache (α : Type) where
  durClean : Duration
  closed : Bool
  cleanerRunning : Bool
  objs : Store α
  deriving DecidableEq, Repr

/-- `Cache.Get`: look the key up; absent gives nil; an expired entry is
deleted and gives nil; otherwise the payload is returned. -/
def Cache.get {α : Type} (c : Cache α) (now : Time) (k : String) :
    Option α × Cache α :=
  match lookup c.objs k with
  | none => (none, c)
  | some v =>
    if isExpired now v then (none, { c with objs := eraseKey c.objs k })
    else (some v.data, c)

/-- `Cache.Len`: the number of entries currently stored. -/
def Cache.len {α : Type} (c : Cache α) : Nat :=
  c.objs.length

/-- `Cache.SetEx`: nil payload or non-positive expiry returns at once; a
closed cache drops the write; otherwise the entry is stored with deadline
`now + exp` and the cleaner is (re)started. -/
def Cache.setEx {α : Type} (c : Cache α) (now : Time) (k : String)
    (val : Option α) (exp : Duration) : Cache α :=
  match val with
  | none => c
  | some a =>
    if exp ≤ 0 then c
    else if c.closed then c
    else { c with
            objs := insertKey c.objs k ⟨now + exp, a⟩
            cleanerRunning := true }

/-- `Cache.TTL`: absent keys give `-1`; a present entry with remaining
time `expireAt - now ≤ 0` is deleted and gives `-1`; otherwise the
remaining time is returned. -/
def Cache.ttl {α : Type} (c : Cache α) (now : Time) (k : String) :
    Duration × Cache α :=
  match lookup c.objs k with
  | none => (-1, c)
  | some v =>
    if v.expireAt - now ≤ 0 then (-1, { c with objs := eraseKey c.objs k })
    else (v.expireAt - now, c)

/-- The result of `Cache.Close`: `nil` or `ErrAlreadyClosed`. -/
inductive CloseResult where
  | ok
  | alreadyClosed
  deriving DecidableEq, Repr

/-- `Cache.Close`: a second close fails with `ErrAlreadyClosed`; the first
close marks the cache closed and discards the store (the non-blocking wake
signal to the cleaner does not change the modelled state). -/
def Cache.close {α : Type} (c : Cache α) : CloseResult × Cache α :=
  if c.closed then (.alreadyClosed, c)
  else (.ok, { c with closed := true, objs := [] })

/-- `lockedExpireAll` from expirer.go: capture one `now`, then iterate over
the entries, deleting each expired one from the map.  The fold iterates the
snapshot of the entries while deleting from the map, as Go's `range` with
`delete` does. -/
def lockedExpireAll {α : Type} (now : Time) (m : Store α) : Store α :=
  m.foldl (fun acc p => if isExpired now p.2 then eraseKey acc p.1 else acc) m

/-- `lockedExpireSome` from expirer.go: scan entries in iteration order,
deleting expired ones, stopping once `count >= size` (so at least one entry
is scanned when the map is non-empty, even for `size ≤ 0`); return the
fraction of scanned entries that were expired, `0` when nothing was
scanned, together with the updated map. -/
def lockedExpireSome {α : Type} (now : Time) (size : Int) (m : Store α) :
    Rat × Store α :=
  let n := (max size 1).toNat
  let scanned := m.take n
  let kept := scanned.filter (fun p => !isExpired now p.2)
  let count := scanned.length
  let ratio : Rat :=
    if count = 0 then 0 else ((count - kept.length : Nat) : Rat) / (count : Rat)
  (ratio, kept ++ m.drop n)

/-- The expirePartial struct from expirer.go: batch size and continue
ratio.  (Renamed here to `ExpireBatched`.) -/
structure ExpireBatched where
  batchSize : Int
  continueRatio : Rat
  deriving DecidableEq, Repr

/-- The constructor NewExpirePartial from expirer.go, restricted to finite
float64 continue ratios (taken exactly, as rationals): clamp `batchSize` up
to 1 and `continueRatio` into `(0, 1]`, with `1/100` (Go's `0.01`) as the
default for non-positive ratios.  `NewExpireBatchedF` below models the same
constructor over the full float64 value space, NaN and infinities included,
and restricts to this definition on finite arguments. -/
def NewExpireBatched (batchSize : Int) (continueRatio : Rat) : ExpireBatched :=
  let b := if batchSize ≤ 0 then 1 else batchSize
  let r :=
    if continueRatio ≤ 0 then (1 : Rat) / 100
    else if 1 < continueRatio then 1
    else continueRatio
  ⟨b, r⟩

/-- A Go float64 value as far as this package compares one: a NaN, an
infinity, or a finite value (taken exactly; the source literals 0.0, 0.01
and 1.0 are modelled by the rationals they denote). -/
inductive Float64 where
  | nan
  | negInf
  | posInf
  | finite (q : Rat)
  deriving DecidableEq, Repr

/-- IEEE-754 `<` on float64 values: NaN compares false with everything. -/
def Float64.lt : Float64 → Float64 → Bool
  | .nan, _ => false
  | _, .nan => false
  | .negInf, .negInf => false
  | .negInf, _ => true
  | _, .negInf => false
  | .posInf, _ => false
  | .finite _, .posInf => true
  | .finite a, .finite c => decide (a < c)

/-- IEEE-754 `<=` on float64 values: NaN compares false with everything. -/
def Float64.le (a c : Float64) : Bool :=
  match a, c with
  | .nan, _ => false
  | _, .nan => false
  | _, _ => Float64.lt a c || decide (a = c)

/-- The expirePartial struct as built by NewExpirePartial, with the
continue ratio kept as a full float64 value. -/
structure ExpireBatchedF where
  batchSize : Int
  continueRatio : Float64
  deriving DecidableEq, Repr

/-- NewExpirePartial from expirer.go over the full float64 model:
`batchSize <= 0` is coerced to 1; `continueRatio <= 0.0` gives the 0.01
default and `continueRatio > 1.0` gives 1.0 — both comparisons are false
on a NaN argument, which is therefore kept unchanged. -/
def NewExpireBatchedF (batchSize : Int) (continueRatio : Float64) :
    ExpireBatchedF :=
  let b := if batchSize ≤ 0 then 1 else batchSize
  let r :=
    if Float64.le continueRatio (.finite 0) then Float64.finite (1 / 100)
    else if Float64.lt (.finite 1) continueRatio then Float64.finite 1
    else continueRatio
  ⟨b, r⟩

/-- The batch loop of the bounded-batch expirer: each iteration captures a
fresh `now` (supplied by `nows`), expires one batch, and stops when the
batch's expired ratio is below `continueRatio` or, after the lock is
retaken, when the cache has been closed.  Sequential model: the lock
release and `runtime.Gosched()` between batches are interleaving points
with no effect on the state itself; `closed` is the flag as re-read after
each reacquisition. -/
def expireBatchedLoop {α : Type} (e : ExpireBatched) (closed : Bool) :
    List Time → Store α → Store α
  | [], m => m
  | now :: rest, m =>
    let m2 := (lockedExpireSome now e.batchSize m).2
    if (lockedExpireSome now e.batchSize m).1 < e.continueRatio then m2
    else if closed then m2
    else expireBatchedLoop e closed rest m2

/-- `lockedExpire` of the bounded-batch expirer: if the store has at most
`batchSize` entries, do one exhaustive sweep (which captures `now0`);
otherwise run the batch loop. -/
def ExpireBatched.lockedExpire {α : Type} (e : ExpireBatched) (now0 : Time)
    (nows : List Time) (closed : Bool) (m : Store α) : Store α :=
  if (m.length : Int) ≤ e.batchSize then lockedExpireAll now0 m
  else expireBatchedLoop e closed nows m

/-- `lockedExpire` of the exhaustive expirer (`expireAll`): it simply
delegates to `lockedExpireAll` on the cache's store. -/
def ExpireAll.lockedExpire {α : Type} (now : Time) (c : Cache α) : Store α :=
  lockedExpireAll now c.objs

/-! Helper lemmas about the store operations. -/

section Helpers

variable {α : Type}

theorem lookup_eraseKey_ne (m : Store α) (k k2 : String) (h : k2 ≠ k) :
    lookup (eraseKey m k) k2 = lookup m k2 := by
  induction m with
  | nil => rfl
  | cons p rest ih =>
    unfold eraseKey at ih ⊢
    by_cases hp : p.1 = k
    · rw [List.filter_cons_of_neg (by simp [hp]), ih, lookup,
        if_neg (fun hh => h (hh.symm.trans hp))]
    · rw [List.filter_cons_of_pos (by simp [hp]), lookup, lookup]
      by_cases hp2 : p.1 = k2
      · rw [if_pos hp2, if_pos hp2]
      · rw [if_neg hp2, if_neg hp2, ih]

theorem lookup_insertKey_self (m : Store α) (k : String) (v : Value α) :
    lookup (insertKey m k v) k = some v := by
  induction m with
  | nil => simp [insertKey, eraseKey, lookup]
  | cons p rest ih =>
    unfold insertKey eraseKey at ih ⊢
    by_cases hp : p.1 = k
    · rw [List.filter_cons_of_neg (by simp [hp])]
      exact ih
    · rw [List.filter_cons_of_pos (by simp [hp]), List.cons_append, lookup,
        if_neg hp]
      exact ih

/-- Keys of the entries of `l` that are expired at `now`. -/
def expiredKeys (now : Time) (l : Store α) : List String :=
  (l.filter (fun p => isExpired now p.2)).map Prod.fst

theorem foldl_expire_eq_filter (now : Time) (l : Store α) :
    ∀ acc : Store α,
      l.foldl (fun acc p => if isExpired now p.2 then eraseKey acc p.1 else acc) acc
        = acc.filter (fun q => !((expiredKeys now l).contains q.1)) := by
  induction l with
  | nil =>
    intro acc
    simp [expiredKeys]
  | cons p rest ih =>
    intro acc
    rw [List.foldl_cons]
    by_cases hp : isExpired now p.2
    · rw [if_pos hp, ih]
      unfold eraseKey
      rw [List.filter_filter]
      apply List.filter_congr
      intro q _
      have hek : expiredKeys now (p :: rest) = p.1 :: expiredKeys now rest := by
        simp [expiredKeys, List.filter_cons, hp]
      rw [hek, List.contains_cons]
      rw [Bool.eq_iff_iff]
      simp [-bne_iff_ne, bne, Bool.and_comm]
    · rw [if_neg hp, ih]
      have hek : expiredKeys now (p :: rest) = expiredKeys now rest := by
        simp [expiredKeys, List.filter_cons, hp]
      rw [hek]

theorem key_inj_of_keysNodup {m : Store α} (h : keysNodup m)
    {p q : String × Value α} (hp : p ∈ m) (hq : q ∈ m) (hk : p.1 = q.1) :
    p = q :=
  List.inj_on_of_nodup_map h hp hq hk

/-- On a store with pairwise distinct keys, the exhaustive sweep keeps
exactly the entries not expired at the captured instant. -/
theorem lockedExpireAll_eq_filter (now : Time) (m : Store α)
    (h : keysNodup m) :
    lockedExpireAll now m = m.filter (fun p => !isExpired now p.2) := by
  unfold lockedExpireAll
  rw [foldl_expire_eq_filter]
  apply List.filter_congr
  intro q hq
  congr 1
  rw [Bool.eq_iff_iff]
  simp only [expiredKeys, List.contains_iff_exists_mem_beq, List.mem_map,
    List.mem_filter, beq_iff_eq]
  constructor
  · rintro ⟨k2, ⟨p, ⟨hpm, hpe⟩, hpk⟩, hqk⟩
    have : q = p := key_inj_of_keysNodup h hq hpm (hqk.trans hpk.symm)
    rw [this]
    exact hpe
  · intro hqe
    exact ⟨q.1, ⟨q, ⟨hq, hqe⟩, rfl⟩, rfl⟩

theorem lockedExpireSome_mem (size : Int) {now : Time} {m : Store α}
    {p : String × Value α} (hp : p ∈ m) (hne : isExpired now p.2 = false) :
    p ∈ (lockedExpireSome now size m).2 := by
  unfold lockedExpireSome
  simp only
  have : p ∈ m.take ((max size 1).toNat) ++ m.drop ((max size 1).toNat) := by
    rw [List.take_append_drop]; exact hp
  rcases List.mem_append.mp this with h1 | h2
  · exact List.mem_append.mpr (Or.inl (List.mem_filter.mpr ⟨h1, by simp [hne]⟩))
  · exact List.mem_append.mpr (Or.inr h2)

theorem expireBatchedLoop_mem {e : ExpireBatched} {closed : Bool}
    {p : String × Value α} (hz : p.2.expireAt = 0) :
    ∀ (nows : List Time) (m : Store α), p ∈ m →
      p ∈ expireBatchedLoop e closed nows m := by
  intro nows
  induction nows with
  | nil => intro m hp; exact hp
  | cons now rest ih =>
    intro m hp
    have hne : isExpired now p.2 = false := by simp [isExpired, hz]
    have hmem := lockedExpireSome_mem e.batchSize hp hne
    unfold expireBatchedLoop
    split
    · exact hmem
    · split
      · exact hmem
      · exact ih _ hmem

theorem Float64.le_finite_finite (a c : Rat) :
    Float64.le (.finite a) (.finite c) = decide (a ≤ c) := by
  show (decide (a < c) || decide (Float64.finite a = Float64.finite c))
      = decide (a ≤ c)
  by_cases h : a ≤ c
  · rcases lt_or_eq_of_le h with h1 | h1
    · simp [h, h1]
    · simp [h, h1]
  · have h1 : ¬(a < c) := fun hh => h (le_of_lt hh)
    have h2 : ¬(Float64.finite a = Float64.finite c) :=
      fun hh => h (le_of_eq (Float64.finite.inj hh))
    simp [h, h1, h2]

theorem NewExpireBatchedF_ratio_nan (b : Int) :
    (NewExpireBatchedF b Float64.nan).continueRatio = Float64.nan := rfl

theorem NewExpireBatchedF_ratio_negInf (b : Int) :
    (NewExpireBatchedF b Float64.negInf).continueRatio
      = Float64.finite (1 / 100) := rfl

theorem NewExpireBatchedF_ratio_posInf (b : Int) :
    (NewExpireBatchedF b Float64.posInf).continueRatio
      = Float64.finite 1 := rfl

theorem NewExpireBatchedF_ratio_finite (b : Int) (q : Rat) :
    (NewExpireBatchedF b (Float64.finite q)).continueRatio
      = if q ≤ 0 then Float64.finite (1 / 100)
        else if 1 < q then Float64.finite 1
        else Float64.finite q := by
  by_cases h0 : q ≤ 0
  · have hle : Float64.le (.finite q) (.finite 0) = true := by
      rw [Float64.le_finite_finite]
      exact decide_eq_true h0
    have h1 : (NewExpireBatchedF b (Float64.finite q)).continueRatio
        = Float64.finite (1 / 100) := by
      unfold NewExpireBatchedF
      simp [hle]
    rw [h1, if_pos h0]
  · have hle : Float64.le (.finite q) (.finite 0) = false := by
      rw [Float64.le_finite_finite]
      exact decide_eq_false h0
    by_cases hq1 : 1 < q
    · have hlt : Float64.lt (.finite 1) (.finite q) = true := by
        show decide ((1 : Rat) < q) = true
        exact decide_eq_true hq1
      have h1 : (NewExpireBatchedF b (Float64.finite q)).continueRatio
          = Float64.finite 1 := by
        unfold NewExpireBatchedF
        simp [hle, hlt]
      rw [h1, if_neg h0, if_pos hq1]
    · have hlt : Float64.lt (.finite 1) (.finite q) = false := by
        show decide ((1 : Rat) < q) = false
        exact decide_eq_false hq1
      have h1 : (NewExpireBatchedF b (Float64.finite q)).continueRatio
          = Float64.finite q := by
        unfold NewExpireBatchedF
        simp [hle, hlt]
      rw [h1, if_neg h0, if_neg hq1]

end Helpers

/-! Claim theorems. -/

/-- C1: the expiration predicate holds exactly when the `expireAt` deadline
is set (non-zero) and `now` is strictly after it; an entry with no
expiration deadline is never expired, for every instant and every entry. -/
theorem isExpired_spec {α : Type} (now : Time) (v : Value α) :
    (isExpired now v = true ↔ (v.expireAt ≠ 0 ∧ v.expireAt < now)) ∧
    (v.expireAt = 0 → isExpired now v = false) := by
  constructor
  · simp [isExpired]
  · intro h
    simp [isExpired, h]

/-- C1 witness: a concrete entry with no deadline is not expired, and one
with deadline 3 is expired at instant 7. -/
theorem isExpired_spec_witness :
    isExpired 7 (⟨0, "x"⟩ : Value String) = false ∧
    isExpired 7 (⟨3, "x"⟩ : Value String) = true :=
  ⟨(isExpired_spec 7 ⟨0, "x"⟩).2 rfl,
   (isExpired_spec 7 ⟨3, "x"⟩).1.mpr (by decide)⟩

/-- C2 counterexample: at the instant `now = 5` an entry with deadline 5 is
not expired per `isExpired`, yet `TTL` evicts it and returns the absent
sentinel `-1`; so `TTL` does not decide expiry by `isExpired`. -/
theorem ttl_not_isExpired_cex :
    isExpired 5 (⟨5, "x"⟩ : Value String) = false ∧
    (Cache.ttl ⟨10, false, false, [("k", ⟨5, "x"⟩)]⟩ 5 "k").1 = -1 ∧
    (Cache.ttl (⟨10, false, false, [("k", ⟨5, "x"⟩)]⟩ : Cache String)
        5 "k").2.objs = [] := by
  refine ⟨rfl, rfl, rfl⟩

/-- C2 (amended): Get and both active sweep paths decide expiry by the
single predicate `isExpired`; `TTL`, however, evicts and returns the absent
sentinel exactly when the remaining time `expireAt - now` is non-positive —
a condition that agrees with `isExpired` except when `now` equals a set
deadline exactly, or when the deadline is unset (where `TTL` still
evicts). -/
theorem expiry_paths_spec {α : Type} (c : Cache α) (now : Time) (k : String)
    (v : Value α) (hl : lookup c.objs k = some v) :
    (isExpired now v = true →
      c.get now k = (none, { c with objs := eraseKey c.objs k })) ∧
    (isExpired now v = false → c.get now k = (some v.data, c)) ∧
    (v.expireAt - now ≤ 0 →
      c.ttl now k = (-1, { c with objs := eraseKey c.objs k })) ∧
    (0 < v.expireAt - now → c.ttl now k = (v.expireAt - now, c)) ∧
    (keysNodup c.objs →
      lockedExpireAll now c.objs
        = c.objs.filter (fun p => !isExpired now p.2)) ∧
    (∀ size : Int,
      (lockedExpireSome now size c.objs).2
        = (c.objs.take ((max size 1).toNat)).filter (fun p => !isExpired now p.2)
            ++ c.objs.drop ((max size 1).toNat)) := by
  refine ⟨?_, ?_, ?_, ?_, ?_, ?_⟩
  · intro h
    simp [Cache.get, hl, h]
  · intro h
    simp [Cache.get, hl, h]
  · intro h
    simp [Cache.ttl, hl, h]
  · intro h
    have : ¬(v.expireAt - now ≤ 0) := by linarith
    simp [Cache.ttl, hl, this]
  · intro h
    exact lockedExpireAll_eq_filter now c.objs h
  · intro size
    rfl

/-- C2 amended-claim witness: the exact-deadline entry is evicted by `TTL`
via the theorem's non-positive-remaining-time component. -/
theorem expiry_paths_spec_witness :
    Cache.ttl (⟨10, false, false, [("k", ⟨5, "x"⟩)]⟩ : Cache String) 5 "k"
      = (-1, { (⟨10, false, false, [("k", ⟨5, "x"⟩)]⟩ : Cache String) with
                objs := eraseKey [("k", ⟨5, "x"⟩)] "k" }) :=
  (expiry_paths_spec (⟨10, false, false, [("k", ⟨5, "x"⟩)]⟩ : Cache String)
    5 "k" ⟨5, "x"⟩ rfl).2.2.1 (by decide)

/-- C3: immediately after `SetEx(key, payload, ttl)` with `ttl > 0` on a
cache that is not closed, `Get(key)` returns the payload and `TTL(key)`
returns a duration `d` with `0 < d ≤ ttl`. -/
theorem setEx_get_ttl_spec {α : Type} (c : Cache α) (now : Time)
    (k : String) (a : α) (exp : Duration)
    (hexp : 0 < exp) (hcl : c.closed = false) :
    ((c.setEx now k (some a) exp).get now k).1 = some a ∧
    0 < ((c.setEx now k (some a) exp).ttl now k).1 ∧
    ((c.setEx now k (some a) exp).ttl now k).1 ≤ exp := by
  have hne : ¬(exp ≤ 0) := by linarith
  have hset : c.setEx now k (some a) exp
      = { c with objs := insertKey c.objs k ⟨now + exp, a⟩,
                 cleanerRunning := true } := by
    simp [Cache.setEx, hne, hcl]
  have hlook : lookup (insertKey c.objs k ⟨now + exp, a⟩) k
      = some ⟨now + exp, a⟩ := lookup_insertKey_self _ _ _
  have hlt : ¬(now + exp < now) := by linarith
  have hni : isExpired now (⟨now + exp, a⟩ : Value α) = false := by
    simp [isExpired, hlt]
  have hpos : ¬(now + exp - now ≤ 0) := by linarith
  refine ⟨?_, ?_, ?_⟩
  · rw [hset]
    simp [Cache.get, hlook, hni]
  · rw [hset]
    simp [Cache.ttl, hlook, hne]
    linarith
  · rw [hset]
    simp [Cache.ttl, hlook, hne]

/-- C3 witness: a concrete SetEx followed by Get and TTL at the same
instant. -/
theorem setEx_get_ttl_spec_witness :
    (((⟨10, false, false, []⟩ : Cache String).setEx 0 "k" (some "v") 5).get
        0 "k").1 = some "v" ∧
    0 < (((⟨10, false, false, []⟩ : Cache String).setEx 0 "k" (some "v")
        5).ttl 0 "k").1 ∧
    (((⟨10, false, false, []⟩ : Cache String).setEx 0 "k" (some "v") 5).ttl
        0 "k").1 ≤ 5 :=
  setEx_get_ttl_spec _ 0 "k" "v" 5 (by decide) rfl

/-- C4 counterexample: SetEx with the empty — but non-nil — string payload
is not a no-op: it changes the cache and makes the key visible through
Get, which returns the empty payload. -/
theorem setEx_empty_payload_cex :
    ((Cache.setEx (⟨10, false, false, []⟩ : Cache String) 0 "k" (some "")
        5).get 0 "k").1 = some "" ∧
    Cache.setEx (⟨10, false, false, []⟩ : Cache String) 0 "k" (some "") 5
      ≠ ⟨10, false, false, []⟩ := by
  exact ⟨rfl, by decide⟩

/-- C4 (amended): SetEx with a nil payload, or with `ttl ≤ 0`, is a silent
no-op that leaves the entire cache state unchanged (so it cannot make the
key visible via Get); an empty but non-nil payload, however, is stored
like any other value. -/
theorem setEx_noop_spec {α : Type} (c : Cache α) (now : Time) (k : String)
    (val : Option α) (exp : Duration)
    (h : val = none ∨ exp ≤ 0) :
    c.setEx now k val exp = c := by
  rcases h with h | h
  · rw [h]
    rfl
  · cases val with
    | none => rfl
    | some a => simp [Cache.setEx, h]

/-- C4 amended-claim witness: nil payload and non-positive ttl no-ops on a
concrete cache. -/
theorem setEx_noop_spec_witness :
    Cache.setEx (⟨10, false, false, []⟩ : Cache String) 0 "k" none 5
      = ⟨10, false, false, []⟩ ∧
    Cache.setEx (⟨10, false, false, []⟩ : Cache String) 0 "k" (some "v") 0
      = ⟨10, false, false, []⟩ :=
  ⟨setEx_noop_spec _ 0 "k" none 5 (Or.inl rfl),
   setEx_noop_spec _ 0 "k" (some "v") 0 (Or.inr (by decide))⟩

/-- C5: the first Close succeeds, sets the closed flag and discards the
whole entry store; a second Close returns the AlreadyClosed error and
changes nothing; after a successful Close, Get returns absent (and leaves
the state unchanged) for every key, and SetEx leaves the state
unchanged. -/
theorem close_spec {α : Type} (c : Cache α) (hcl : c.closed = false) :
    (c.close).1 = CloseResult.ok ∧
    (c.close).2.closed = true ∧
    (c.close).2.objs = [] ∧
    ((c.close).2.close).1 = CloseResult.alreadyClosed ∧
    ((c.close).2.close).2 = (c.close).2 ∧
    (∀ now k, (c.close).2.get now k = (none, (c.close).2)) ∧
    (∀ now k val exp, (c.close).2.setEx now k val exp = (c.close).2) := by
  have h1 : c.close = (CloseResult.ok, { c with closed := true, objs := [] }) := by
    simp [Cache.close, hcl]
  refine ⟨by rw [h1], by rw [h1], by rw [h1], ?_, ?_, ?_, ?_⟩
  · rw [h1]
    simp [Cache.close]
  · rw [h1]
    simp [Cache.close]
  · intro now k
    rw [h1]
    simp [Cache.get, lookup]
  · intro now k val exp
    rw [h1]
    cases val with
    | none => rfl
    | some a =>
      by_cases h : exp ≤ 0 <;> simp [Cache.setEx, h]

/-- C5 witness: the close sequence on a concrete one-entry cache. -/
theorem close_spec_witness :
    ((⟨10, false, false, [("k", ⟨5, "x"⟩)]⟩ : Cache String).close).1
      = CloseResult.ok ∧
    ((⟨10, false, false, [("k", ⟨5, "x"⟩)]⟩ : Cache String).close).2.objs
      = [] ∧
    (((⟨10, false, false, [("k", ⟨5, "x"⟩)]⟩ : Cache String).close).2.close).1
      = CloseResult.alreadyClosed ∧
    (((⟨10, false, false, [("k", ⟨5, "x"⟩)]⟩ : Cache String).close).2.get
        0 "k").1 = none :=
  ⟨(close_spec _ rfl).1, (close_spec _ rfl).2.2.1,
   (close_spec _ rfl).2.2.2.1,
   by rw [(close_spec (⟨10, false, false, [("k", ⟨5, "x"⟩)]⟩ : Cache String)
       rfl).2.2.2.2.2.1 0 "k"]⟩

/-- C6: the exhaustive strategy, evaluated against the single captured
instant, removes exactly the entries expired at that instant: the swept
store is precisely the non-expired entries of the original store, each with
its value unchanged. -/
theorem lockedExpireAll_spec {α : Type} (now : Time) (m : Store α)
    (h : keysNodup m) :
    lockedExpireAll now m = m.filter (fun p => !isExpired now p.2) ∧
    (∀ p : String × Value α,
      p ∈ lockedExpireAll now m ↔ p ∈ m ∧ isExpired now p.2 = false) := by
  have he := lockedExpireAll_eq_filter now m h
  refine ⟨he, ?_⟩
  intro p
  rw [he, List.mem_filter]
  simp

/-- C6 witness: a concrete sweep keeps exactly the never-expiring entry and
the not-yet-due entry. -/
theorem lockedExpireAll_spec_witness :
    lockedExpireAll 10
        [("a", (⟨5, "x"⟩ : Value String)), ("b", ⟨0, "y"⟩), ("c", ⟨20, "z"⟩)]
      = [("b", ⟨0, "y"⟩), ("c", ⟨20, "z"⟩)] :=
  ((lockedExpireAll_spec 10
      [("a", (⟨5, "x"⟩ : Value String)), ("b", ⟨0, "y"⟩), ("c", ⟨20, "z"⟩)]
      (by unfold keysNodup; decide)).1).trans (by rfl)

/-- C7: on a store holding at most `batchSize` entries, one invocation of
the bounded-batch sweep is exactly the exhaustive sweep: a single full scan
against the one captured instant, with no batching. -/
theorem lockedExpire_small_spec {α : Type} (e : ExpireBatched) (now0 : Time)
    (nows : List Time) (closed : Bool) (m : Store α)
    (h : (m.length : Int) ≤ e.batchSize) :
    e.lockedExpire now0 nows closed m = lockedExpireAll now0 m := by
  unfold ExpireBatched.lockedExpire
  rw [if_pos h]

/-- C7 witness: a one-entry store under a batch size of 2. -/
theorem lockedExpire_small_spec_witness :
    (NewExpireBatched 2 (1 / 2)).lockedExpire 10 [] false
        [("a", (⟨5, "x"⟩ : Value String))]
      = lockedExpireAll 10 [("a", (⟨5, "x"⟩ : Value String))] :=
  lockedExpire_small_spec (NewExpireBatched 2 (1 / 2)) 10 [] false
    [("a", (⟨5, "x"⟩ : Value String))] (by decide)

/-- C8 counterexample: NewExpirePartial with a NaN continue ratio takes
neither clamp branch — both IEEE comparisons are false on NaN — so the
returned strategy keeps `continueRatio = NaN`, and neither
`0 < continueRatio` nor `continueRatio ≤ 1` holds of it in the float64
order: the claimed range invariant fails at this input. -/
theorem NewExpireBatchedF_nan_cex :
    (NewExpireBatchedF 10 Float64.nan).continueRatio = Float64.nan ∧
    Float64.lt (Float64.finite 0)
      (NewExpireBatchedF 10 Float64.nan).continueRatio = false ∧
    Float64.le (NewExpireBatchedF 10 Float64.nan).continueRatio
      (Float64.finite 1) = false :=
  ⟨rfl, rfl, rfl⟩

/-- C8 (amended): the constructed strategy always has `batchSize ≥ 1`
(`batchSize ≤ 0` is coerced to 1, in-range values kept); for every non-NaN
continueRatio argument the returned ratio satisfies
`0 < continueRatio ≤ 1` in the float64 order — `continueRatio ≤ 0`
(including -Inf) is coerced to the small positive default 0.01,
`continueRatio > 1` (including +Inf) is clamped to 1, and in-range
arguments are kept unchanged; a NaN argument, however, fails both clamp
comparisons and is kept as NaN, escaping the range invariant.  On finite
arguments this model restricts to the exact-rational constructor. -/
theorem NewExpireBatchedF_spec (b : Int) (r : Float64) :
    1 ≤ (NewExpireBatchedF b r).batchSize ∧
    (b ≤ 0 → (NewExpireBatchedF b r).batchSize = 1) ∧
    (1 ≤ b → (NewExpireBatchedF b r).batchSize = b) ∧
    (r = Float64.nan →
      (NewExpireBatchedF b r).continueRatio = Float64.nan) ∧
    (r ≠ Float64.nan →
      Float64.lt (Float64.finite 0) (NewExpireBatchedF b r).continueRatio
          = true ∧
      Float64.le (NewExpireBatchedF b r).continueRatio (Float64.finite 1)
          = true) ∧
    (Float64.le r (Float64.finite 0) = true →
      (NewExpireBatchedF b r).continueRatio = Float64.finite (1 / 100)) ∧
    (Float64.lt (Float64.finite 1) r = true →
      (NewExpireBatchedF b r).continueRatio = Float64.finite 1) ∧
    (Float64.lt (Float64.finite 0) r = true →
      Float64.le r (Float64.finite 1) = true →
      (NewExpireBatchedF b r).continueRatio = r) ∧
    (∀ q : Rat, (NewExpireBatchedF b (Float64.finite q)).continueRatio
        = Float64.finite ((NewExpireBatched b q).continueRatio) ∧
      (NewExpireBatchedF b (Float64.finite q)).batchSize
        = (NewExpireBatched b q).batchSize) := by
  have hbatch : (NewExpireBatchedF b r).batchSize
      = if b ≤ 0 then 1 else b := rfl
  refine ⟨?_, ?_, ?_, ?_, ?_, ?_, ?_, ?_, ?_⟩
  · rw [hbatch]
    split_ifs with h <;> omega
  · intro h
    rw [hbatch, if_pos h]
  · intro h
    rw [hbatch, if_neg (by omega)]
  · intro h
    subst h
    exact NewExpireBatchedF_ratio_nan b
  · intro h
    cases r with
    | nan => exact absurd rfl h
    | negInf =>
      rw [NewExpireBatchedF_ratio_negInf]
      constructor
      · show decide ((0 : Rat) < 1 / 100) = true
        exact decide_eq_true (by norm_num)
      · rw [Float64.le_finite_finite]
        exact decide_eq_true (by norm_num)
    | posInf =>
      rw [NewExpireBatchedF_ratio_posInf]
      constructor
      · show decide ((0 : Rat) < 1) = true
        exact decide_eq_true (by norm_num)
      · rw [Float64.le_finite_finite]
        exact decide_eq_true le_rfl
    | finite q =>
      rw [NewExpireBatchedF_ratio_finite]
      by_cases h0 : q ≤ 0
      · rw [if_pos h0]
        constructor
        · show decide ((0 : Rat) < 1 / 100) = true
          exact decide_eq_true (by norm_num)
        · rw [Float64.le_finite_finite]
          exact decide_eq_true (by norm_num)
      · rw [if_neg h0]
        by_cases hq1 : 1 < q
        · rw [if_pos hq1]
          constructor
          · show decide ((0 : Rat) < 1) = true
            exact decide_eq_true (by norm_num)
          · rw [Float64.le_finite_finite]
            exact decide_eq_true le_rfl
        · rw [if_neg hq1]
          constructor
          · show decide ((0 : Rat) < q) = true
            exact decide_eq_true (lt_of_not_le h0)
          · rw [Float64.le_finite_finite]
            exact decide_eq_true (le_of_not_lt hq1)
  · intro h
    cases r with
    | nan => exact absurd h (by decide)
    | negInf => exact NewExpireBatchedF_ratio_negInf b
    | posInf => exact absurd h (by decide)
    | finite q =>
      rw [Float64.le_finite_finite] at h
      rw [NewExpireBatchedF_ratio_finite, if_pos (of_decide_eq_true h)]
  · intro h
    cases r with
    | nan => exact absurd h (by decide)
    | negInf => exact absurd h (by decide)
    | posInf => exact NewExpireBatchedF_ratio_posInf b
    | finite q =>
      have h1 : decide ((1 : Rat) < q) = true := h
      have hq : (1 : Rat) < q := of_decide_eq_true h1
      rw [NewExpireBatchedF_ratio_finite, if_neg (by linarith), if_pos hq]
  · intro h1 h2
    cases r with
    | nan => exact absurd h1 (by decide)
    | negInf => exact absurd h1 (by decide)
    | posInf => exact absurd h2 (by decide)
    | finite q =>
      have h1' : decide ((0 : Rat) < q) = true := h1
      have hq0 : (0 : Rat) < q := of_decide_eq_true h1'
      rw [Float64.le_finite_finite] at h2
      have hq1 : q ≤ 1 := of_decide_eq_true h2
      rw [NewExpireBatchedF_ratio_finite, if_neg (by linarith),
        if_neg (by linarith)]
  · intro q
    constructor
    · rw [NewExpireBatchedF_ratio_finite]
      have hRat : (NewExpireBatched b q).continueRatio
          = if q ≤ 0 then (1 : Rat) / 100 else if 1 < q then 1 else q := rfl
      rw [hRat]
      split_ifs <;> rfl
    · rfl

/-- C8 amended-claim witness: a concrete out-of-range finite argument is
clamped, a NaN argument is kept, and a concrete in-range ratio is
positive. -/
theorem NewExpireBatchedF_spec_witness :
    1 ≤ (NewExpireBatchedF 0 (Float64.finite 2)).batchSize ∧
    (NewExpireBatchedF 0 (Float64.finite 2)).batchSize = 1 ∧
    (NewExpireBatchedF 0 (Float64.finite 2)).continueRatio
      = Float64.finite 1 ∧
    (NewExpireBatchedF 7 Float64.nan).continueRatio = Float64.nan ∧
    Float64.lt (Float64.finite 0)
      (NewExpireBatchedF 7 (Float64.finite (1 / 2))).continueRatio = true :=
  ⟨(NewExpireBatchedF_spec 0 (Float64.finite 2)).1,
   (NewExpireBatchedF_spec 0 (Float64.finite 2)).2.1 le_rfl,
   (NewExpireBatchedF_spec 0 (Float64.finite 2)).2.2.2.2.2.2.1 (by decide),
   (NewExpireBatchedF_spec 7 Float64.nan).2.2.2.1 rfl,
   ((NewExpireBatchedF_spec 7 (Float64.finite (1 / 2))).2.2.2.2.1
      (by decide)).1⟩

/-- C9 counterexample: an entry whose deadline is unset (the "never" value
0) is removed by the expiration logic of `TTL`: on a cache holding it,
`TTL` at instant 1 deletes the entry and returns the absent sentinel, even
though the entry is not expired. -/
theorem never_entry_ttl_cex :
    (Cache.ttl (⟨10, false, false, [("k", ⟨0, "x"⟩)]⟩ : Cache String)
        1 "k").2.objs = [] ∧
    (Cache.ttl (⟨10, false, false, [("k", ⟨0, "x"⟩)]⟩ : Cache String)
        1 "k").1 = -1 ∧
    isExpired 1 (⟨0, "x"⟩ : Value String) = false :=
  ⟨rfl, rfl, rfl⟩

/-- C9 (amended): a stored entry with unset (`never`) deadline is never
removed by Get's lazy eviction nor by either sweep strategy, at any
instant; a `TTL` query, however, does evict it whenever `0 - now ≤ 0`.
So only an explicit overwrite, Close, or such a TTL query removes it. -/
theorem never_entry_spec {α : Type} (c : Cache α) (now : Time) (k : String)
    (v : Value α) (hz : v.expireAt = 0) (hl : lookup c.objs k = some v) :
    c.get now k = (some v.data, c) ∧
    (∀ (t : Time) (m : Store α), keysNodup m → (k, v) ∈ m →
      (k, v) ∈ lockedExpireAll t m) ∧
    (∀ (t : Time) (size : Int) (m : Store α), (k, v) ∈ m →
      (k, v) ∈ (lockedExpireSome t size m).2) ∧
    (∀ (e : ExpireBatched) (now0 : Time) (nows : List Time) (closed : Bool)
        (m : Store α), keysNodup m → (k, v) ∈ m →
      (k, v) ∈ e.lockedExpire now0 nows closed m) ∧
    (0 - now ≤ 0 → c.ttl now k = (-1, { c with objs := eraseKey c.objs k })) := by
  have hnex : ∀ t : Time, isExpired t v = false := by
    intro t
    simp [isExpired, hz]
  refine ⟨?_, ?_, ?_, ?_, ?_⟩
  · simp [Cache.get, hl, hnex now]
  · intro t m hnd hm
    rw [lockedExpireAll_eq_filter t m hnd]
    exact List.mem_filter.mpr ⟨hm, by simp [hnex t]⟩
  · intro t size m hm
    exact lockedExpireSome_mem size hm (hnex t)
  · intro e now0 nows closed m hnd hm
    unfold ExpireBatched.lockedExpire
    split
    · rw [lockedExpireAll_eq_filter now0 m hnd]
      exact List.mem_filter.mpr ⟨hm, by simp [hnex now0]⟩
    · exact expireBatchedLoop_mem hz nows m hm
  · intro h
    have : v.expireAt - now ≤ 0 := by rw [hz]; exact h
    simp [Cache.ttl, hl, this]

/-- C9 amended-claim witness: the never-deadline entry survives a concrete
exhaustive sweep and a concrete bounded-batch sweep, and Get returns it. -/
theorem never_entry_spec_witness :
    Cache.get (⟨10, false, false, [("k", ⟨0, "x"⟩)]⟩ : Cache String) 99 "k"
      = (some "x", ⟨10, false, false, [("k", ⟨0, "x"⟩)]⟩) ∧
    ("k", (⟨0, "x"⟩ : Value String)) ∈
      lockedExpireAll 99 [("k", ⟨0, "x"⟩), ("d", ⟨5, "y"⟩)] :=
  ⟨(never_entry_spec (⟨10, false, false, [("k", ⟨0, "x"⟩)]⟩ : Cache String)
      99 "k" ⟨0, "x"⟩ rfl rfl).1,
   (never_entry_spec (⟨10, false, false, [("k", ⟨0, "x"⟩)]⟩ : Cache String)
      99 "k" ⟨0, "x"⟩ rfl rfl).2.1 99 [("k", ⟨0, "x"⟩), ("d", ⟨5, "y"⟩)]
      (by unfold keysNodup; decide) (by decide)⟩

/-- C10 counterexample: with an entry at its exact deadline — present and
not expired per `isExpired` — `TTL` does not leave the store identical: it
deletes the entry. -/
theorem get_ttl_frame_cex :
    isExpired 5 (⟨5, "x"⟩ : Value String) = false ∧
    (Cache.ttl (⟨10, false, false, [("k", ⟨5, "x"⟩)]⟩ : Cache String)
        5 "k").2 ≠ (⟨10, false, false, [("k", ⟨5, "x"⟩)]⟩ : Cache String) :=
  ⟨rfl, by decide⟩

/-- C10 (amended): Get(k) and TTL(k) modify at most the single entry for
`k`, and only by deleting it; every other key's entry, the closed flag and
the configuration are unchanged; the store is left entirely identical when
the entry is absent, when Get finds it not expired, and when TTL finds its
remaining time positive (TTL deletes at non-positive remaining time, which
includes the not-yet-expired exact-deadline instant). -/
theorem get_ttl_frame_spec {α : Type} (c : Cache α) (now : Time) (k : String) :
    ((c.get now k).2.closed = c.closed ∧
     (c.get now k).2.durClean = c.durClean ∧
     (c.get now k).2.cleanerRunning = c.cleanerRunning) ∧
    ((c.ttl now k).2.closed = c.closed ∧
     (c.ttl now k).2.durClean = c.durClean ∧
     (c.ttl now k).2.cleanerRunning = c.cleanerRunning) ∧
    ((c.get now k).2.objs = c.objs ∨
     (c.get now k).2.objs = eraseKey c.objs k) ∧
    ((c.ttl now k).2.objs = c.objs ∨
     (c.ttl now k).2.objs = eraseKey c.objs k) ∧
    (∀ k2, k2 ≠ k → lookup (c.get now k).2.objs k2 = lookup c.objs k2) ∧
    (∀ k2, k2 ≠ k → lookup (c.ttl now k).2.objs k2 = lookup c.objs k2) ∧
    (lookup c.objs k = none → (c.get now k).2 = c ∧ (c.ttl now k).2 = c) ∧
    (∀ v, lookup c.objs k = some v → isExpired now v = false →
      (c.get now k).2 = c) ∧
    (∀ v, lookup c.objs k = some v → 0 < v.expireAt - now →
      (c.ttl now k).2 = c) := by
  have hget : (c.get now k).2 = c ∨
      (c.get now k).2 = { c with objs := eraseKey c.objs k } := by
    rcases hl : lookup c.objs k with _ | v
    · left
      simp [Cache.get, hl]
    · by_cases he : isExpired now v
      · right
        simp [Cache.get, hl, he]
      · left
        simp [Cache.get, hl, he]
  have httl : (c.ttl now k).2 = c ∨
      (c.ttl now k).2 = { c with objs := eraseKey c.objs k } := by
    rcases hl : lookup c.objs k with _ | v
    · left
      simp [Cache.ttl, hl]
    · by_cases he : v.expireAt - now ≤ 0
      · right
        simp [Cache.ttl, hl, he]
      · left
        simp [Cache.ttl, hl, he]
  refine ⟨?_, ?_, ?_, ?_, ?_, ?_, ?_, ?_, ?_⟩
  · rcases hget with h | h <;> rw [h] <;> exact ⟨rfl, rfl, rfl⟩
  · rcases httl with h | h <;> rw [h] <;> exact ⟨rfl, rfl, rfl⟩
  · rcases hget with h | h <;> rw [h]
    · left
      rfl
    · right
      rfl
  · rcases httl with h | h <;> rw [h]
    · left
      rfl
    · right
      rfl
  · intro k2 hk2
    rcases hget with h | h <;> rw [h]
    exact lookup_eraseKey_ne c.objs k k2 hk2
  · intro k2 hk2
    rcases httl with h | h <;> rw [h]
    exact lookup_eraseKey_ne c.objs k k2 hk2
  · intro hl
    constructor
    · simp [Cache.get, hl]
    · simp [Cache.ttl, hl]
  · intro v hl hv
    simp [Cache.get, hl, hv]
  · intro v hl hv
    have : ¬(v.expireAt - now ≤ 0) := by linarith
    simp [Cache.ttl, hl, this]

/-- C10 amended-claim witness: Get on an absent key leaves a concrete cache
identical, and a TTL eviction of one key leaves another key's entry
readable unchanged. -/
theorem get_ttl_frame_spec_witness :
    ((⟨10, false, false, [("k", ⟨5, "x"⟩)]⟩ : Cache String).get 0 "a").2
      = (⟨10, false, false, [("k", ⟨5, "x"⟩)]⟩ : Cache String) ∧
    lookup ((⟨10, false, false, [("k", ⟨5, "x"⟩)]⟩ : Cache String).ttl
        9 "k").2.objs "z" = lookup [("k", ⟨5, "x"⟩)] "z" :=
  ⟨((get_ttl_frame_spec (⟨10, false, false, [("k", ⟨5, "x"⟩)]⟩ : Cache String)
      0 "a").2.2.2.2.2.2.1 rfl).1,
   (get_ttl_frame_spec (⟨10, false, false, [("k", ⟨5, "x"⟩)]⟩ : Cache String)
      9 "k").2.2.2.2.2.1 "z" (by decide)⟩

end GoCache
